import Mathlib

/-!
Verification of the Rust-SMT-LIB-API contract (`src/lib.rs`).

The repository ships the abstract `SMTSolver` trait (with its documented
contract) in `src/lib.rs`; the concrete backend modules (`smt_err`,
`smt_ops`, `z3`) are declared there but their code is not part of the
sources under verification.  We therefore embed the contract itself: the
error taxonomy, the `CheckSatResult` type, sorts, terms, and a solver
session state machine modelled from the specification's description of the
required observable behavior (level arithmetic, scope stack, last-outcome
gating of `get_value`, record-sort registration, numeric-constant
construction and extraction).
-/

namespace SMT

/-- The three-kind error taxonomy of `smt_err` (per `src/lib.rs` lines
15-20): `APIError` for misuse of the API, `UnsupportedError` for features
the solver lacks, `InternalError` for solver or library failure. -/
inductive SMTError where
  | APIError
  | UnsupportedError
  | InternalError
  deriving DecidableEq, Repr

/-- `SMTResult<T> = Result<T, SMTError>` from `src/lib.rs` line 21. -/
abbrev SMTResult (α : Type) := Except SMTError α

/-- The result of `check_sat` (`src/lib.rs` lines 25-30): satisfiable,
unsatisfiable, or unknown.  Note the type has no error alternative. -/
inductive CheckSatResult where
  | Sat
  | Unsat
  | Unknown
  deriving DecidableEq, Repr

/-- Modelled from the spec: the sorts reachable through the contract's
sort operations — the built-in nullary sorts Bool, Int, Real, the BitVec
family, the arity-2 Array constructor, uninterpreted sorts from
`declare_sort`, and record sorts from `declare_record_sort`. -/
inductive SMTSort where
  | BoolSort
  | IntSort
  | RealSort
  | BitVecSort (width : Nat)
  | ArraySort (idx elem : SMTSort)
  | UninterpretedSort (sname : String)
  | RecordSort (sname : String)
  deriving DecidableEq, Repr

/-- True for the numeric sorts supported by `const_from_int` and
`const_from_string`: integer, real, and bitvector. -/
def SMTSort.isNumeric : SMTSort → Bool
  | .IntSort => true
  | .RealSort => true
  | .BitVecSort _ => true
  | _ => false

/-- True exactly for bitvector sorts. -/
def SMTSort.isBitVec : SMTSort → Bool
  | .BitVecSort _ => true
  | _ => false

/-- True exactly for the real sort. -/
def SMTSort.isReal : SMTSort → Bool
  | .RealSort => true
  | _ => false

/-- Modelled from the spec: terms are opaque values carrying exactly one
sort; the shapes reachable through the contract are numeric constants
(from `const_from_int` and model values), string-built constants (from
`const_from_string`), declared constants, and function applications. -/
inductive SMTTerm where
  | intConst (value : Int) (tsort : SMTSort)
  | strConst (value : List Char) (tsort : SMTSort)
  | var (vname : String) (tsort : SMTSort)
  | app (fname : String) (args : List SMTTerm) (tsort : SMTSort)
  deriving Repr

/-- The unique sort carried by a term (spec §3: a Term has exactly one
Sort, retrievable at any time). -/
def SMTTerm.sort : SMTTerm → SMTSort
  | .intConst _ s => s
  | .strConst _ s => s
  | .var _ s => s
  | .app _ _ s => s

/-- A term is a concrete constant value (as opposed to a declared
constant or an application). -/
def SMTTerm.isConstant : SMTTerm → Bool
  | .intConst _ _ => true
  | .strConst _ _ => true
  | _ => false

/-- Smallest i64 value, `-2^63`. -/
def i64Min : Int := -(2 ^ 63)

/-- Largest i64 value, `2^63 - 1`. -/
def i64Max : Int := 2 ^ 63 - 1

/-- `Term::to_int` (`src/lib.rs` lines 58-62): for terms that are
constant values representable as i64, return the corresponding value;
APIError if the term is not a constant of real, int, or bitvector sort,
or the value does not fit in 64 bits.  String-built constants are kept
symbolic in this model, so integer extraction is modelled on the
integer-valued constants produced by `const_from_int` and `get_value`. -/
def SMTTerm.to_int : SMTTerm → SMTResult Int
  | .intConst v srt =>
      if srt.isNumeric = true ∧ i64Min ≤ v ∧ v ≤ i64Max then .ok v
      else .error .APIError
  | _ => .error .APIError

/-- A record sort declaration: its name, field names, and field sorts. -/
structure RecordDecl where
  rname : String
  fields : List String
  sorts : List SMTSort
  deriving Repr

/-- Modelled from the spec (§3 SolverSession): the session holds a level
counter (initially 0), a scope stack where each scope owns the assertions
added while it was topmost, the outcome of the most recent check-sat call
(initially none), the registry of declared record sorts, and the
model-production flag. -/
structure Session where
  level : Nat
  scopes : List (List SMTTerm)
  lastOutcome : Option CheckSatResult
  records : List RecordDecl
  modelProduction : Bool
  deriving Repr

/-- A fresh session: level 0, one (global) empty scope, no check-sat
outcome yet, no record sorts, model production enabled. -/
def new_session : Session :=
  { level := 0
    scopes := [[]]
    lastOutcome := none
    records := []
    modelProduction := true }

/-- `get_sort` (`src/lib.rs` lines 78-79): get the sort of a term. -/
def get_sort (_s : Session) (t : SMTTerm) : SMTResult SMTSort :=
  .ok t.sort

/-- Modelled from the spec: `declare_record_sort` (`src/lib.rs` lines
93-104) registers a record sort with the given field names and sorts; an
APIError results — with no partial sort created — if the number of fields
does not match the number of sorts, if the field names are not all
distinct, or if a record of the same name has already been declared. -/
def declare_record_sort (s : Session) (rname : String) (fields : List String)
    (sorts : List SMTSort) : SMTResult SMTSort × Session :=
  if fields.length = sorts.length ∧ fields.Nodup ∧ ∀ r ∈ s.records, r.rname ≠ rname then
    (.ok (.RecordSort rname), { s with records := ⟨rname, fields, sorts⟩ :: s.records })
  else
    (.error .APIError, s)

/-- `is_record_sort` (`src/lib.rs` line 107): true iff the sort is a
record sort registered in the session. -/
def is_record_sort (s : Session) (srt : SMTSort) : Bool :=
  match srt with
  | .RecordSort n => s.records.any (fun r => r.rname == n)
  | _ => false

/-- Modelled from the spec: `const_from_int` (`src/lib.rs` lines 130-135)
builds a constant of integer, real, or bitvector sort from an i64 value;
for bitvector the value must be non-negative and fit in the bit-width;
any other sort, or an out-of-range bitvector value, is an APIError. -/
def const_from_int (value : Int) (srt : SMTSort) : SMTResult SMTTerm :=
  match srt with
  | .IntSort => .ok (.intConst value .IntSort)
  | .RealSort => .ok (.intConst value .RealSort)
  | .BitVecSort w =>
      if 0 ≤ value ∧ value < 2 ^ w then .ok (.intConst value (.BitVecSort w))
      else .error .APIError
  | _ => .error .APIError

/-- A character acceptable in the body of a numeric literal: a digit, or
a decimal point when the target sort is real. -/
def allowedBodyChar (realSort : Bool) (c : Char) : Bool :=
  c.isDigit || (realSort && c == '.')

/-- The body of a numeric literal: every character a digit (or a decimal
point for real sorts), with at most one decimal point in total. -/
def digitsBody (realSort : Bool) (cs : List Char) : Bool :=
  cs.all (allowedBodyChar realSort) && decide (cs.countP (fun c => c == '.') ≤ 1)

/-- Modelled from the spec: validity of a numeric string for a sort
(`src/lib.rs` lines 137-143) — only digits; non-bitvector sorts can also
have a single unary minus at the beginning; reals can have at most one
decimal point. -/
def validConstString (srt : SMTSort) (cs : List Char) : Bool :=
  match cs with
  | [] => digitsBody srt.isReal []
  | c0 :: rest =>
      if c0 = '-' then !srt.isBitVec && digitsBody srt.isReal rest
      else digitsBody srt.isReal (c0 :: rest)

/-- Modelled from the spec: `const_from_string` (`src/lib.rs` lines
137-143) builds a constant of integer, real, or bitvector sort from a
numeric string; malformed input is an APIError; whether the value fits
within the bit-width for bitvector sorts is deliberately not checked. -/
def const_from_string (value : List Char) (srt : SMTSort) : SMTResult SMTTerm :=
  if srt.isNumeric = false then .error .APIError
  else if validConstString srt value = true then .ok (.strConst value srt)
  else .error .APIError

/-- Modelled from the spec: `push` (`src/lib.rs` lines 177-180) pushes
`n` checkpoints: the level rises by `n`, `n` fresh scopes are stacked,
and the call returns `Ok(true)`. -/
def push (n : Nat) (s : Session) : SMTResult Bool × Session :=
  (.ok true, { s with level := s.level + n, scopes := List.replicate n [] ++ s.scopes })

/-- Modelled from the spec: `pop` (`src/lib.rs` lines 182-186) pops `n`
checkpoints; `n` must be at most the current level, else an APIError is
returned and nothing is mutated; otherwise the level drops by `n`, the
`n` topmost scopes with their assertions are discarded, and the call
returns `Ok(true)`. -/
def pop (n : Nat) (s : Session) : SMTResult Bool × Session :=
  if n ≤ s.level then
    (.ok true, { s with level := s.level - n, scopes := s.scopes.drop n })
  else
    (.error .APIError, s)

/-- Add an assertion to the topmost scope of the stack. -/
def addToTop (t : SMTTerm) : List (List SMTTerm) → List (List SMTTerm)
  | [] => [[t]]
  | top :: rest => (t :: top) :: rest

/-- Modelled from the spec: `assert` (`src/lib.rs` lines 188-191) adds a
boolean term to the current scope and returns `Ok(true)`; a non-boolean
assertion is a backend-reported failure (InternalError per the trait
documentation). -/
def assert (t : SMTTerm) (s : Session) : SMTResult Bool × Session :=
  if t.sort = .BoolSort then (.ok true, { s with scopes := addToTop t s.scopes })
  else (.error .InternalError, s)

/-- Modelled from the spec: `check_sat` (`src/lib.rs` lines 193-195)
runs the decision procedure — an external engine, abstracted here as a
function from the live assertions to a `CheckSatResult` (incompleteness,
timeout, and resource exhaustion are values of that result type, namely
`Unknown`) — and records the outcome as the session's last outcome.  Its
return type is `CheckSatResult`, not `SMTResult`: no error channel. -/
def check_sat (engine : List SMTTerm → CheckSatResult) (s : Session) :
    CheckSatResult × Session :=
  let r := engine s.scopes.flatten
  (r, { s with lastOutcome := some r })

/-- Modelled from the spec: `get_value` (`src/lib.rs` lines 197-202) is
valid only when the most recent check-sat outcome is Sat and model
production is enabled, in which case it reports the model's concrete
constant value for the queried term, at the term's own sort; otherwise
it is an APIError. -/
def get_value (model : SMTTerm → Int) (s : Session) (t : SMTTerm) : SMTResult SMTTerm :=
  if s.lastOutcome = some .Sat ∧ s.modelProduction = true then
    .ok (.intConst (model t) t.sort)
  else
    .error .APIError

/-- A push or pop instruction, for reasoning about call sequences. -/
inductive StackOp where
  | push (n : Nat)
  | pop (n : Nat)
  deriving Repr

/-- Run a sequence of push/pop calls against a session, threading the
state returned by each call. -/
def runOps (s : Session) : List StackOp → Session
  | [] => s
  | .push n :: rest => runOps (push n s).2 rest
  | .pop n :: rest => runOps (pop n s).2 rest

/-- Total amount pushed by a sequence of stack operations. -/
def totalPushed : List StackOp → Nat
  | [] => 0
  | .push n :: rest => n + totalPushed rest
  | .pop _ :: rest => totalPushed rest

/-- Total amount popped by a sequence of stack operations. -/
def totalPopped : List StackOp → Nat
  | [] => 0
  | .push _ :: rest => totalPopped rest
  | .pop n :: rest => n + totalPopped rest

/-- A sequence of stack operations is valid from a given level when every
pop argument is at most the level at the time of the call. -/
def validOps : Nat → List StackOp → Bool
  | _, [] => true
  | lvl, .push n :: rest => validOps (lvl + n) rest
  | lvl, .pop n :: rest => decide (n ≤ lvl) && validOps (lvl - n) rest

theorem runOps_level (ops : List StackOp) : ∀ s : Session,
    validOps s.level ops = true →
    (runOps s ops).level + totalPopped ops = s.level + totalPushed ops := by
  induction ops with
  | nil => intro s _; simp [runOps, totalPushed, totalPopped]
  | cons op rest ih =>
    intro s hv
    cases op with
    | push n =>
      have hlev : (push n s).2.level = s.level + n := rfl
      have hv' : validOps (push n s).2.level rest = true := by
        rw [hlev]; exact hv
      have := ih (push n s).2 hv'
      rw [hlev] at this
      simp only [runOps, totalPushed, totalPopped]
      omega
    | pop n =>
      simp only [validOps, Bool.and_eq_true, decide_eq_true_eq] at hv
      obtain ⟨hle, hv⟩ := hv
      have hpop : pop n s = (.ok true, { s with level := s.level - n, scopes := s.scopes.drop n }) := by
        unfold pop; rw [if_pos hle]
      have hlev : (pop n s).2.level = s.level - n := by rw [hpop]
      have hv' : validOps (pop n s).2.level rest = true := by rw [hlev]; exact hv
      have := ih (pop n s).2 hv'
      rw [hlev] at this
      simp only [runOps, totalPushed, totalPopped]
      omega

/-- C1: `check_sat` never returns an error value — for every session
state (and every engine), it yields exactly one of Sat, Unsat, or
Unknown, and records that outcome as the session's last outcome;
incompleteness, timeout, and resource exhaustion are values of
`CheckSatResult` (`Unknown`), not of the error channel. -/
theorem check_sat_never_errors (engine : List SMTTerm → CheckSatResult) (s : Session) :
    ((check_sat engine s).1 = .Sat ∨ (check_sat engine s).1 = .Unsat ∨
      (check_sat engine s).1 = .Unknown) ∧
    (check_sat engine s).2.lastOutcome = some (check_sat engine s).1 := by
  refine ⟨?_, rfl⟩
  cases h : engine s.scopes.flatten <;> simp [check_sat, h]

/-- C2: a fresh session has level 0, and after any sequence of push and
pop calls in which every pop argument is at most the level at the time of
the call, the level equals the total amount pushed minus the total amount
popped. -/
theorem level_is_pushes_minus_pops :
    new_session.level = 0 ∧
    ∀ ops : List StackOp, validOps new_session.level ops = true →
      ((runOps new_session ops).level : Int) =
        (totalPushed ops : Int) - (totalPopped ops : Int) := by
  refine ⟨rfl, fun ops h => ?_⟩
  have hrun := runOps_level ops new_session h
  have h0 : new_session.level = 0 := rfl
  rw [h0] at hrun
  omega

theorem level_is_pushes_minus_pops_witness :
    validOps new_session.level
        [StackOp.push 3, StackOp.pop 1, StackOp.push 2, StackOp.pop 4] = true ∧
    ((runOps new_session
        [StackOp.push 3, StackOp.pop 1, StackOp.push 2, StackOp.pop 4]).level : Int) =
      (totalPushed [StackOp.push 3, StackOp.pop 1, StackOp.push 2, StackOp.pop 4] : Int) -
        (totalPopped [StackOp.push 3, StackOp.pop 1, StackOp.push 2, StackOp.pop 4] : Int) :=
  ⟨by decide, level_is_pushes_minus_pops.2 _ (by decide)⟩

/-- C3: for every session and every `n` strictly greater than the
current level, `pop n` returns APIError and leaves the session state
unchanged, so in particular the level afterwards is the level before. -/
theorem pop_above_level_is_APIError (s : Session) (n : Nat) (h : s.level < n) :
    pop n s = (.error .APIError, s) ∧ (pop n s).2.level = s.level := by
  have hc : ¬ n ≤ s.level := by omega
  unfold pop
  rw [if_neg hc]
  exact ⟨rfl, rfl⟩

theorem pop_above_level_is_APIError_witness :
    (push 2 new_session).2.level < 5 ∧
    pop 5 (push 2 new_session).2 = (.error .APIError, (push 2 new_session).2) ∧
    (pop 5 (push 2 new_session).2).2.level = (push 2 new_session).2.level :=
  ⟨by decide,
    (pop_above_level_is_APIError (push 2 new_session).2 5 (by decide)).1,
    (pop_above_level_is_APIError (push 2 new_session).2 5 (by decide)).2⟩

/-- C9: `get_sort` succeeds on every term of a session and returns the
term's unique sort. -/
theorem get_sort_always_succeeds (s : Session) (t : SMTTerm) :
    get_sort s t = .ok t.sort := rfl

/-- C10: `push`, `pop`, and `assert` return `Ok(true)` whenever they
succeed — `Ok(false)` is impossible for all three — and on the success
paths (`pop` with a valid argument, `assert` of a boolean term, `push`
always) the result is exactly `Ok(true)`. -/
theorem stack_ops_ok_is_true :
    (∀ (s : Session) (n : Nat) (b : Bool), (push n s).1 = .ok b → b = true) ∧
    (∀ (s : Session) (n : Nat) (b : Bool), (pop n s).1 = .ok b → b = true) ∧
    (∀ (s : Session) (t : SMTTerm) (b : Bool), (assert t s).1 = .ok b → b = true) ∧
    (∀ (s : Session) (n : Nat), (push n s).1 = .ok true) ∧
    (∀ (s : Session) (n : Nat), n ≤ s.level → (pop n s).1 = .ok true) ∧
    (∀ (s : Session) (t : SMTTerm), t.sort = .BoolSort → (assert t s).1 = .ok true) := by
  refine ⟨?_, ?_, ?_, ?_, ?_, ?_⟩
  · intro s n b h
    simpa [push] using h
  · intro s n b h
    unfold pop at h
    split at h
    · simpa using h
    · simp at h
  · intro s t b h
    unfold assert at h
    split at h
    · simpa using h
    · simp at h
  · intro s n
    rfl
  · intro s n h
    unfold pop
    rw [if_pos h]
  · intro s t h
    unfold assert
    rw [if_pos h]

theorem stack_ops_ok_is_true_witness :
    (pop 0 new_session).1 = .ok true ∧ (push 1 new_session).1 = .ok true :=
  ⟨stack_ops_ok_is_true.2.2.2.2.1 new_session 0 (by decide),
    stack_ops_ok_is_true.2.2.2.1 new_session 1⟩

/-- C4: `get_value` returns APIError whenever the most recent check-sat
outcome is not Sat — in particular when check-sat has never run (outcome
none) and when it returned Unsat or Unknown — and conversely any
successful `get_value` call implies the last outcome was Sat and model
production is enabled. -/
theorem get_value_requires_sat (model : SMTTerm → Int) (s : Session) (t : SMTTerm) :
    ((s.lastOutcome = none ∨ s.lastOutcome = some .Unsat ∨
        s.lastOutcome = some .Unknown) →
      get_value model s t = .error .APIError) ∧
    (∀ r : SMTTerm, get_value model s t = .ok r →
      s.lastOutcome = some .Sat ∧ s.modelProduction = true) := by
  constructor
  · intro h
    have hne : ¬ (s.lastOutcome = some .Sat ∧ s.modelProduction = true) := by
      rintro ⟨hs, -⟩
      rcases h with h | h | h <;> rw [h] at hs <;> simp at hs
    unfold get_value
    rw [if_neg hne]
  · intro r h
    unfold get_value at h
    split at h
    · assumption
    · simp at h

theorem get_value_requires_sat_witness :
    new_session.lastOutcome = none ∧
    get_value (fun _ => 0) new_session (.var "x" .IntSort) = .error .APIError :=
  ⟨rfl, (get_value_requires_sat (fun _ => 0) new_session (.var "x" .IntSort)).1
    (Or.inl rfl)⟩

/-- C5: `declare_record_sort` returns APIError — and registers nothing,
leaving the session exactly as it was — when the number of fields differs
from the number of sorts, when the field names are not pairwise distinct,
or when a record sort of the same name is already declared. -/
theorem declare_record_sort_rejects (s : Session) (rname : String)
    (fields : List String) (sorts : List SMTSort)
    (h : fields.length ≠ sorts.length ∨ ¬ fields.Nodup ∨
      ∃ r ∈ s.records, r.rname = rname) :
    declare_record_sort s rname fields sorts = (.error .APIError, s) := by
  have hc : ¬ (fields.length = sorts.length ∧ fields.Nodup ∧
      ∀ r ∈ s.records, r.rname ≠ rname) := by
    rintro ⟨h1, h2, h3⟩
    rcases h with h | h | ⟨r, hr, hname⟩
    · exact h h1
    · exact h h2
    · exact h3 r hr hname
  unfold declare_record_sort
  rw [if_neg hc]

theorem declare_record_sort_rejects_witness :
    (¬ (["x", "x"] : List String).Nodup) ∧
    declare_record_sort new_session "P" ["x", "x"] [.IntSort, .IntSort] =
      (.error .APIError, new_session) :=
  ⟨by decide,
    declare_record_sort_rejects new_session "P" ["x", "x"] [.IntSort, .IntSort]
      (Or.inr (Or.inl (by decide)))⟩

/-- C6: round-trip of integer constants — for every i64 value `v`,
building a constant of integer sort with `const_from_int` and extracting
it with `to_int` yields `Ok v`. -/
theorem const_from_int_to_int_roundtrip (v : Int)
    (h1 : i64Min ≤ v) (h2 : v ≤ i64Max) :
    (const_from_int v .IntSort).bind SMTTerm.to_int = .ok v := by
  show (SMTTerm.intConst v .IntSort).to_int = .ok v
  simp only [SMTTerm.to_int]
  rw [if_pos ⟨rfl, h1, h2⟩]

theorem const_from_int_to_int_roundtrip_witness :
    i64Min ≤ (42 : Int) ∧ (42 : Int) ≤ i64Max ∧
    (const_from_int 42 .IntSort).bind SMTTerm.to_int = .ok 42 :=
  ⟨by decide, by decide, const_from_int_to_int_roundtrip 42 (by decide) (by decide)⟩

/-- C7: when `get_value` succeeds, the returned term is a concrete
constant whose sort equals the sort of the queried term. -/
theorem get_value_returns_constant_of_same_sort (model : SMTTerm → Int)
    (s : Session) (t r : SMTTerm) (h : get_value model s t = .ok r) :
    r.isConstant = true ∧ r.sort = t.sort := by
  unfold get_value at h
  split at h
  · cases h
    exact ⟨rfl, rfl⟩
  · simp at h

theorem digitsBody_false_of_mem (r : Bool) (cs : List Char) (c : Char)
    (hmem : c ∈ cs) (hbad : allowedBodyChar r c = false) :
    digitsBody r cs = false := by
  cases hdb : digitsBody r cs
  · rfl
  · exfalso
    unfold digitsBody at hdb
    rw [Bool.and_eq_true] at hdb
    have hall := List.all_eq_true.mp hdb.1 c hmem
    rw [hbad] at hall
    exact Bool.false_ne_true hall

theorem digitsBody_false_of_two_points (r : Bool) (cs : List Char)
    (h : 2 ≤ cs.countP (fun c => c == '.')) : digitsBody r cs = false := by
  unfold digitsBody
  have hdec : decide (cs.countP (fun c => c == '.') ≤ 1) = false := by
    rw [decide_eq_false_iff_not]
    omega
  rw [hdec, Bool.and_false]

theorem digitsBody_true_of_digits (r : Bool) (cs : List Char)
    (h : cs.all Char.isDigit = true) : digitsBody r cs = true := by
  unfold digitsBody
  rw [Bool.and_eq_true]
  constructor
  · rw [List.all_eq_true]
    intro c hc
    have hd := List.all_eq_true.mp h c hc
    simp [allowedBodyChar, hd]
  · rw [decide_eq_true_eq]
    have hz : cs.countP (fun c => c == '.') = 0 := by
      rw [List.countP_eq_zero]
      intro c hc hcm
      have hd := List.all_eq_true.mp h c hc
      rw [beq_iff_eq] at hcm
      subst hcm
      simp at hd
    omega

theorem allowedBodyChar_minus (r : Bool) : allowedBodyChar r '-' = false := by
  cases r <;> decide

theorem validConstString_false_of_bad (srt : SMTSort) (cs : List Char) (c : Char)
    (hmem : c ∈ cs) (hbad : allowedBodyChar srt.isReal c = false) (hm : c ≠ '-') :
    validConstString srt cs = false := by
  cases cs with
  | nil => simp at hmem
  | cons c0 rest =>
    by_cases h0 : c0 = '-'
    · subst h0
      have hc : c ∈ rest := by
        rcases List.mem_cons.mp hmem with h | h
        · exact absurd h hm
        · exact h
      simp only [validConstString]
      rw [if_pos trivial, digitsBody_false_of_mem srt.isReal rest c hc hbad, Bool.and_false]
    · simp only [validConstString]
      rw [if_neg h0]
      exact digitsBody_false_of_mem _ _ c hmem hbad

theorem const_from_string_error_of_invalid (cs : List Char) (srt : SMTSort)
    (h : validConstString srt cs = false) :
    const_from_string cs srt = .error .APIError := by
  unfold const_from_string
  cases hnum : srt.isNumeric
  · rw [if_pos rfl]
  · rw [if_neg (by simp), if_neg (by simp [h])]

theorem isReal_false_of_ne (srt : SMTSort) (h : srt ≠ .RealSort) :
    srt.isReal = false := by
  cases srt
  case RealSort => exact absurd rfl h
  all_goals rfl

/-- C8: `const_from_string` returns APIError for any input containing a
character other than a digit (the permitted leading minus and decimal
point aside), for more than one minus or a minus with a bitvector sort
(one leading minus is allowed only for non-bitvector sorts), and for more
than one decimal point or a decimal point with a non-real sort; for
bitvector sorts a digit string is accepted with no bit-width check, and
non-bitvector sorts accept one leading minus. -/
theorem const_from_string_validation :
    (∀ (cs : List Char) (c : Char) (srt : SMTSort),
      c ∈ cs → c.isDigit = false → c ≠ '-' → c ≠ '.' →
      const_from_string cs srt = .error .APIError) ∧
    (∀ (cs : List Char) (w : Nat), cs.head? = some '-' →
      const_from_string cs (.BitVecSort w) = .error .APIError) ∧
    (∀ (cs : List Char) (srt : SMTSort),
      2 ≤ cs.countP (fun c => c == '-') →
      const_from_string cs srt = .error .APIError) ∧
    (∀ (cs : List Char) (srt : SMTSort),
      2 ≤ cs.countP (fun c => c == '.') →
      const_from_string cs srt = .error .APIError) ∧
    (∀ (cs : List Char) (srt : SMTSort), '.' ∈ cs → srt ≠ .RealSort →
      const_from_string cs srt = .error .APIError) ∧
    (∀ (cs : List Char) (w : Nat), cs.all Char.isDigit = true →
      const_from_string cs (.BitVecSort w) = .ok (.strConst cs (.BitVecSort w))) ∧
    (∀ cs : List Char, cs.all Char.isDigit = true →
      const_from_string ('-' :: cs) .IntSort = .ok (.strConst ('-' :: cs) .IntSort)) := by
  refine ⟨?_, ?_, ?_, ?_, ?_, ?_, ?_⟩
  · intro cs c srt hmem hdig hm hdot
    apply const_from_string_error_of_invalid
    apply validConstString_false_of_bad srt cs c hmem ?_ hm
    simp [allowedBodyChar, hdig, hdot]
  · intro cs w hhead
    cases cs with
    | nil => simp at hhead
    | cons c0 rest =>
      have h0 : c0 = '-' := by simpa using hhead
      subst h0
      apply const_from_string_error_of_invalid
      simp only [validConstString]
      rw [if_pos trivial]
      simp [SMTSort.isBitVec]
  · intro cs srt h
    apply const_from_string_error_of_invalid
    cases cs with
    | nil =>
      rw [List.countP_nil] at h
      omega
    | cons c0 rest =>
      by_cases h0 : c0 = '-'
      · subst h0
        have hcons : ('-' :: rest).countP (fun c => c == '-')
            = rest.countP (fun c => c == '-') + 1 := by
          rw [List.countP_cons]
          simp
        have hpos : 0 < rest.countP (fun c => c == '-') := by omega
        obtain ⟨c, hc, hcm⟩ := List.countP_pos_iff.mp hpos
        rw [beq_iff_eq] at hcm
        subst hcm
        simp only [validConstString]
        rw [if_pos trivial,
          digitsBody_false_of_mem _ rest '-' hc (allowedBodyChar_minus _), Bool.and_false]
      · have hpos : 0 < (c0 :: rest).countP (fun c => c == '-') := by omega
        obtain ⟨c, hc, hcm⟩ := List.countP_pos_iff.mp hpos
        rw [beq_iff_eq] at hcm
        subst hcm
        simp only [validConstString]
        rw [if_neg h0]
        exact digitsBody_false_of_mem _ _ '-' hc (allowedBodyChar_minus _)
  · intro cs srt h
    apply const_from_string_error_of_invalid
    cases cs with
    | nil =>
      rw [List.countP_nil] at h
      omega
    | cons c0 rest =>
      by_cases h0 : c0 = '-'
      · subst h0
        have hcons : ('-' :: rest).countP (fun c => c == '.')
            = rest.countP (fun c => c == '.') := by
          rw [List.countP_cons]
          simp
        have hrest : 2 ≤ rest.countP (fun c => c == '.') := by omega
        simp only [validConstString]
        rw [if_pos trivial, digitsBody_false_of_two_points _ rest hrest, Bool.and_false]
      · simp only [validConstString]
        rw [if_neg h0]
        exact digitsBody_false_of_two_points _ _ h
  · intro cs srt hmem hne
    apply const_from_string_error_of_invalid
    apply validConstString_false_of_bad srt cs '.' hmem ?_ (by decide)
    rw [isReal_false_of_ne srt hne]
    decide
  · intro cs w h
    have hv : validConstString (.BitVecSort w) cs = true := by
      cases cs with
      | nil => rfl
      | cons c0 rest =>
        have h0 : c0 ≠ '-' := by
          intro he
          have hd := List.all_eq_true.mp h c0 (List.mem_cons_self c0 rest)
          rw [he] at hd
          simp at hd
        simp only [validConstString]
        rw [if_neg h0]
        exact digitsBody_true_of_digits _ _ h
    unfold const_from_string
    rw [if_neg (by simp [SMTSort.isNumeric]), if_pos hv]
  · intro cs h
    have hv : validConstString .IntSort ('-' :: cs) = true := by
      simp only [validConstString]
      rw [if_pos trivial, digitsBody_true_of_digits _ _ h]
      rfl
    unfold const_from_string
    rw [if_neg (by simp [SMTSort.isNumeric]), if_pos hv]

theorem const_from_string_validation_witness :
    'a' ∈ ['a'] ∧ Char.isDigit 'a' = false ∧ 'a' ≠ '-' ∧ 'a' ≠ '.' ∧
    const_from_string ['a'] .IntSort = .error .APIError :=
  ⟨by decide, by decide, by decide, by decide,
    const_from_string_validation.1 ['a'] 'a' .IntSort (by decide) (by decide)
      (by decide) (by decide)⟩

theorem get_value_returns_constant_of_same_sort_witness :
    get_value (fun _ => 0) (check_sat (fun _ => .Sat) new_session).2
        (.var "x" .IntSort) = .ok (.intConst 0 .IntSort) ∧
    (SMTTerm.intConst 0 .IntSort).isConstant = true ∧
    (SMTTerm.intConst 0 .IntSort).sort = (SMTTerm.var "x" .IntSort).sort :=
  ⟨rfl, get_value_returns_constant_of_same_sort (fun _ => 0)
    (check_sat (fun _ => .Sat) new_session).2 (.var "x" .IntSort)
    (.intConst 0 .IntSort) rfl⟩

end SMT
